import Mathlib

/-!
Verification of the RF link-budget / BER / throughput module
(`BER, Throughput, and Link Budget for RF.py`).

The module is shallowly embedded over `ℝ`.  Python's `raise` is modelled by
the `Except Err` monad: explicit `raise ValueError` validations become
`Err.invalidInput`, the domain error raised by `math.log10` on nonpositive
input becomes `Err.domainError`, and the `RuntimeError` of the bracketing
loop becomes `Err.convergenceFailure`.  `math.erfc` is embedded by its
defining Gaussian integral.  The two loops of the Eb/N0 solver are embedded
with explicit iteration counts: the bisection loop runs exactly the
`max_iter = 200` iterations of the Python `for` loop (running out of fuel is
the Python loop falling through, returning the current bracket), and the
doubling loop, whose `hi > 1e12` ceiling bounds it to at most 41 iterations
starting from `hi = 1`, is given fuel 50, whose exhaustion is proved
unreachable from the entry point.
-/

namespace LinkBudget

open Real MeasureTheory Set

/-- Error outcomes of the module, matching the exceptions the Python code can
raise: explicit input validation, `math` domain errors, and the bracketing
`RuntimeError`. -/
inductive Err
  | invalidInput
  | domainError
  | convergenceFailure
  deriving DecidableEq

/-- Speed of light `c = 299792458.0` [m/s]. -/
def c : ℝ := 299792458

noncomputable section

/-- `db_to_lin(x_db) = 10 ** (x_db / 10.0)`. -/
def db_to_lin (x_db : ℝ) : ℝ := (10 : ℝ) ^ (x_db / 10)

/-- Model of `math.log10`, which raises a domain error on nonpositive
input and returns the base-10 logarithm otherwise. -/
def log10 (x : ℝ) : Except Err ℝ :=
  if x ≤ 0 then .error .domainError else .ok (Real.logb 10 x)

/-- `lin_to_db(x_lin) = 10.0 * math.log10(x_lin)`. -/
def lin_to_db (x_lin : ℝ) : Except Err ℝ := do
  let l ← log10 x_lin
  return 10 * l

/-- `wavelength_m(f_hz) = c / f_hz`, raising for `f_hz <= 0`. -/
def wavelength_m (f_hz : ℝ) : Except Err ℝ :=
  if f_hz ≤ 0 then .error .invalidInput else .ok (c / f_hz)

/-- `fspl_db(R_m, f_hz) = 20.0 * math.log10(4.0 * pi * R_m / lam)` with
`lam = wavelength_m(f_hz)`, raising for `R_m <= 0`. -/
def fspl_db (R_m f_hz : ℝ) : Except Err ℝ :=
  if R_m ≤ 0 then .error .invalidInput
  else do
    let lam ← wavelength_m f_hz
    let l ← log10 (4 * π * R_m / lam)
    return 20 * l

/-- `ebn0_db(CN0_dBHz, Rb_bps, L_impl_dB) = CN0_dBHz - 10.0*math.log10(Rb_bps)
- L_impl_dB`, raising for `Rb_bps <= 0`. -/
def ebn0_db (CN0_dBHz Rb_bps L_impl_dB : ℝ) : Except Err ℝ :=
  if Rb_bps ≤ 0 then .error .invalidInput
  else do
    let l ← log10 Rb_bps
    return CN0_dBHz - 10 * l - L_impl_dB

/-- `gross_bit_rate_from_symbol_rate(Rs_sps, M) = Rs_sps * math.log2(M)`,
raising for `Rs_sps <= 0` and for `M <= 1`. -/
def gross_bit_rate_from_symbol_rate (Rs_sps M : ℝ) : Except Err ℝ :=
  if Rs_sps ≤ 0 then .error .invalidInput
  else if M ≤ 1 then .error .invalidInput
  else .ok (Rs_sps * Real.logb 2 M)

/-- Complementary error function
`erfc x = (2 / sqrt pi) * ∫ t in (x, ∞), exp (-t^2)`, the mathematical
function computed by `math.erfc`. -/
def erfc (x : ℝ) : ℝ := 2 / Real.sqrt π * ∫ t in Ioi x, Real.exp (-t ^ 2)

/-- Value of the QPSK BER model, `0.5 * math.erfc(math.sqrt(ebn0_lin))`. -/
def ber_model (x : ℝ) : ℝ := 0.5 * erfc (Real.sqrt x)

/-- `ber_qpsk_uncoded_awgn_from_ebn0_lin(ebn0_lin)`: raises for negative
input, otherwise returns `0.5 * math.erfc(math.sqrt(ebn0_lin))`. -/
def ber_qpsk_uncoded_awgn_from_ebn0_lin (ebn0_lin : ℝ) : Except Err ℝ :=
  if ebn0_lin < 0 then .error .invalidInput else .ok (ber_model ebn0_lin)

/-- Doubling loop of `required_ebn0_for_target_ber`:
`while ber(hi) > BER_target: hi *= 2.0; if hi > 1e12: raise RuntimeError`.
Fuel 0 is unreachable from the entry point `bracket t 50 1` (the ceiling
stops the loop within 41 iterations); see `bracket_fails` /
`bracket_succeeds`. -/
def bracket (t : ℝ) : ℕ → ℝ → Except Err ℝ
  | 0, _ => .error .convergenceFailure
  | n + 1, hi => do
    let b ← ber_qpsk_uncoded_awgn_from_ebn0_lin hi
    if t < b then
      if 1e12 < 2 * hi then .error .convergenceFailure
      else bracket t n (2 * hi)
    else .ok hi

/-- Bisection loop of `required_ebn0_for_target_ber`, run for exactly
`max_iter` iterations unless the relative-width early exit triggers:
`mid = 0.5*(lo+hi); if ber(mid) > t: lo = mid else: hi = mid;
if (hi-lo)/max(1.0,hi) < tol: break`.  Fuel 0 is the `for` loop falling
through after `max_iter` iterations, which returns the current bracket. -/
def bisect (t tol : ℝ) : ℕ → ℝ → ℝ → Except Err (ℝ × ℝ)
  | 0, lo, hi => .ok (lo, hi)
  | n + 1, lo, hi => do
    let mid := 0.5 * (lo + hi)
    let b ← ber_qpsk_uncoded_awgn_from_ebn0_lin mid
    if t < b then
      if (hi - mid) / max 1 hi < tol then .ok (mid, hi) else bisect t tol n mid hi
    else
      if (mid - lo) / max 1 mid < tol then .ok (lo, mid) else bisect t tol n lo mid

/-- `required_ebn0_for_target_ber(BER_target, tol, max_iter)`: validate
`0 < BER_target < 0.5`, bracket from `lo, hi = 0.0, 1.0` by doubling,
bisect, and return `(hi, lin_to_db(hi))` for the final upper bracket. -/
def required_ebn0_core (BER_target tol : ℝ) (max_iter : ℕ) : Except Err (ℝ × ℝ) :=
  if 0 < BER_target ∧ BER_target < 0.5 then do
    let hi ← bracket BER_target 50 1
    let p ← bisect BER_target tol max_iter 0 hi
    let d ← lin_to_db p.2
    return (p.2, d)
  else .error .invalidInput

/-- `required_ebn0_for_target_ber` at its default arguments
`tol=1e-12, max_iter=200`, as invoked by the script. -/
def required_ebn0_for_target_ber (BER_target : ℝ) : Except Err (ℝ × ℝ) :=
  required_ebn0_core BER_target 1e-12 200

/-- `rb_max_for_target(CN0_dBHz, EbN0_req_dB, L_impl_dB) =
10 ** ((CN0_dBHz - EbN0_req_dB - L_impl_dB) / 10.0)`. -/
def rb_max_for_target (CN0_dBHz EbN0_req_dB L_impl_dB : ℝ) : ℝ :=
  (10 : ℝ) ^ ((CN0_dBHz - EbN0_req_dB - L_impl_dB) / 10)

end

/-! ## Unit conversions: claims C8, C9 -/

/-- C9: `linearToDb(x_lin)` returns `10*log10(x_lin)` for every `x_lin > 0`
and fails with `DomainError` for every `x_lin <= 0`; it never returns a
value for a non-positive input. -/
theorem lin_to_db_domain (x : ℝ) :
    (0 < x → lin_to_db x = .ok (10 * Real.logb 10 x)) ∧
    (x ≤ 0 → lin_to_db x = .error .domainError) := by
  constructor <;> intro h <;> unfold lin_to_db log10
  · rw [if_neg (not_le.mpr h)]; rfl
  · rw [if_pos h]; rfl

/-- Witness for C9 at `x = 1` and `x = -1`. -/
theorem lin_to_db_domain_witness :
    lin_to_db 1 = .ok (10 * Real.logb 10 1) ∧
    lin_to_db (-1) = .error .domainError :=
  ⟨(lin_to_db_domain 1).1 one_pos, (lin_to_db_domain (-1)).2 (by norm_num)⟩

/-- C8: round-trip `dbToLinear(linearToDb(x))` recovers `x` to within `1e-9`
relative tolerance for every `x > 0` (in the real-number model the round
trip is exact). -/
theorem db_lin_round_trip (x : ℝ) (hx : 0 < x) :
    ∃ d, lin_to_db x = .ok d ∧ |db_to_lin d - x| ≤ 1e-9 * x := by
  refine ⟨10 * Real.logb 10 x, (lin_to_db_domain x).1 hx, ?_⟩
  unfold db_to_lin
  have h10 : (10 : ℝ) * Real.logb 10 x / 10 = Real.logb 10 x := by ring
  rw [h10, Real.rpow_logb (by norm_num) (by norm_num) hx, sub_self, abs_zero]
  positivity

/-- Witness for C8 at `x = 1`. -/
theorem db_lin_round_trip_witness :
    ∃ d, lin_to_db 1 = .ok d ∧ |db_to_lin d - 1| ≤ 1e-9 * 1 :=
  db_lin_round_trip 1 one_pos

/-! ## Free-space path loss: claim C7 -/

/-- C7: doubling the range at fixed frequency increases the free-space path
loss by exactly `20*log10 2` dB. -/
theorem fspl_db_range_doubling (R f : ℝ) (hR : 0 < R) (hf : 0 < f) :
    ∃ a b, fspl_db (2 * R) f = .ok a ∧ fspl_db R f = .ok b ∧
      a - b = 20 * Real.logb 10 2 := by
  have hc : (0 : ℝ) < c := by norm_num [c]
  have hlam : 0 < c / f := div_pos hc hf
  have harg : ∀ r : ℝ, 0 < r → 0 < 4 * π * r / (c / f) := fun r hr => by
    apply div_pos _ hlam
    have := Real.pi_pos
    positivity
  have h2R : 0 < 2 * R := by linarith
  have hwl : wavelength_m f = .ok (c / f) := by
    unfold wavelength_m; rw [if_neg (not_le.mpr hf)]
  have hval : ∀ r : ℝ, 0 < r →
      fspl_db r f = .ok (20 * Real.logb 10 (4 * π * r / (c / f))) := by
    intro r hr
    unfold fspl_db
    rw [if_neg (not_le.mpr hr)]
    show (wavelength_m f).bind _ = _
    rw [hwl]
    show (log10 (4 * π * r / (c / f))).bind _ = _
    unfold log10
    rw [if_neg (not_le.mpr (harg r hr))]
    rfl
  refine ⟨_, _, hval (2 * R) h2R, hval R hR, ?_⟩
  have hXY : 4 * π * (2 * R) / (c / f) = 2 * (4 * π * R / (c / f)) := by ring
  rw [hXY, Real.logb_mul (by norm_num) (ne_of_gt (harg R hR))]
  ring

/-- Witness for C7 at `R = 1`, `f = 1`. -/
theorem fspl_db_range_doubling_witness :
    ∃ a b, fspl_db (2 * 1) 1 = .ok a ∧ fspl_db 1 1 = .ok b ∧
      a - b = 20 * Real.logb 10 2 :=
  fspl_db_range_doubling 1 1 one_pos one_pos

/-! ## Maximum bit rate self-consistency: claim C6 -/

/-- C6: feeding `rb_max_for_target(cn0, req, L)` back through `ebn0_db` at
the same C/N0 and implementation loss recovers exactly the required Eb/N0,
and the fed-back bit rate is strictly positive, so the positivity check of
`ebn0_db` never fires on it. -/
theorem rb_max_self_consistency (cn0 req L : ℝ) :
    0 < rb_max_for_target cn0 req L ∧
    ebn0_db cn0 (rb_max_for_target cn0 req L) L = .ok req := by
  have hpos : 0 < rb_max_for_target cn0 req L :=
    Real.rpow_pos_of_pos (by norm_num) _
  refine ⟨hpos, ?_⟩
  unfold ebn0_db
  rw [if_neg (not_le.mpr hpos)]
  show (log10 (rb_max_for_target cn0 req L)).bind _ = _
  unfold log10
  rw [if_neg (not_le.mpr hpos)]
  show Except.ok (cn0 - 10 * Real.logb 10 (rb_max_for_target cn0 req L) - L) = _
  unfold rb_max_for_target
  rw [Real.logb_rpow (by norm_num) (by norm_num)]
  norm_num
  ring

/-- Witness for C6 at `cn0 = 0`, `req = 0`, `L = 0`. -/
theorem rb_max_self_consistency_witness :
    0 < rb_max_for_target 0 0 0 ∧
    ebn0_db 0 (rb_max_for_target 0 0 0) 0 = .ok 0 :=
  rb_max_self_consistency 0 0 0

/-! ## Gross bit rate: claim C10 -/

/-- C10: `grossBitRate` fails with `InvalidInput` exactly when
`symbolRateSps ≤ 0` or `constellationOrder ≤ 1`, and for every real
`constellationOrder > 1` (integer or not) and positive symbol rate it
returns `symbolRateSps * log2(constellationOrder)`. -/
theorem gross_bit_rate_domain :
    (∀ Rs M : ℝ,
      gross_bit_rate_from_symbol_rate Rs M = .error .invalidInput ↔
        Rs ≤ 0 ∨ M ≤ 1) ∧
    (∀ Rs M : ℝ, 0 < Rs → 1 < M →
      gross_bit_rate_from_symbol_rate Rs M = .ok (Rs * Real.logb 2 M)) := by
  constructor
  · intro Rs M
    unfold gross_bit_rate_from_symbol_rate
    by_cases h1 : Rs ≤ 0
    · simp [h1]
    · by_cases h2 : M ≤ 1 <;> simp [h1, h2]
  · intro Rs M h1 h2
    unfold gross_bit_rate_from_symbol_rate
    rw [if_neg (not_le.mpr h1), if_neg (not_le.mpr h2)]

/-- Witness for C10 at the non-integer constellation order `M = 2.5`. -/
theorem gross_bit_rate_domain_witness :
    gross_bit_rate_from_symbol_rate 1 2.5 = .ok (1 * Real.logb 2 2.5) :=
  gross_bit_rate_domain.2 1 2.5 one_pos (by norm_num)

/-! ## Analysis of the BER model -/

lemma exp_sq_integrableOn (s : Set ℝ) :
    IntegrableOn (fun t : ℝ => Real.exp (-t ^ 2)) s := by
  have h : Integrable fun t : ℝ => Real.exp (-1 * t ^ 2) :=
    integrable_exp_neg_mul_sq one_pos
  simpa [neg_mul, one_mul] using h.integrableOn

lemma integral_exp_sq_Ioi_zero :
    ∫ t in Ioi (0 : ℝ), Real.exp (-t ^ 2) = Real.sqrt π / 2 := by
  have h := integral_gaussian_Ioi 1
  simpa [neg_mul, one_mul] using h

lemma integral_exp_sq_Ioi_pos (x : ℝ) :
    0 < ∫ t in Ioi x, Real.exp (-t ^ 2) := by
  have hnn : 0 ≤ᵐ[volume.restrict (Ioi x)] fun t : ℝ => Real.exp (-t ^ 2) :=
    Filter.Eventually.of_forall fun t => (Real.exp_pos _).le
  rw [setIntegral_pos_iff_support_of_nonneg_ae hnn (exp_sq_integrableOn _)]
  have hsupp : Function.support (fun t : ℝ => Real.exp (-t ^ 2)) = univ := by
    ext t
    simp [Function.mem_support, (Real.exp_pos (-t ^ 2)).ne']
  rw [hsupp, univ_inter, Real.volume_Ioi]
  simp

lemma integral_exp_sq_Ioi_strictAnti (x y : ℝ) (hxy : x < y) :
    ∫ t in Ioi y, Real.exp (-t ^ 2) < ∫ t in Ioi x, Real.exp (-t ^ 2) := by
  have hsplit : ∫ t in Ioi x, Real.exp (-t ^ 2) =
      (∫ t in Ioc x y, Real.exp (-t ^ 2)) + ∫ t in Ioi y, Real.exp (-t ^ 2) := by
    rw [← setIntegral_union (Ioc_disjoint_Ioi le_rfl) measurableSet_Ioi
      (exp_sq_integrableOn _) (exp_sq_integrableOn _), Ioc_union_Ioi_eq_Ioi hxy.le]
  have hmid : 0 < ∫ t in Ioc x y, Real.exp (-t ^ 2) := by
    have hnn : 0 ≤ᵐ[volume.restrict (Ioc x y)] fun t : ℝ => Real.exp (-t ^ 2) :=
      Filter.Eventually.of_forall fun t => (Real.exp_pos _).le
    rw [setIntegral_pos_iff_support_of_nonneg_ae hnn (exp_sq_integrableOn _)]
    have hsupp : Function.support (fun t : ℝ => Real.exp (-t ^ 2)) = univ := by
      ext t
      simp [Function.mem_support, (Real.exp_pos (-t ^ 2)).ne']
    rw [hsupp, univ_inter, Real.volume_Ioc]
    exact ENNReal.ofReal_pos.mpr (by linarith)
  linarith

lemma sqrt_pi_pos : 0 < Real.sqrt π := Real.sqrt_pos.mpr Real.pi_pos

lemma erfc_strictAnti : StrictAnti erfc := by
  intro x y hxy
  unfold erfc
  exact mul_lt_mul_of_pos_left (integral_exp_sq_Ioi_strictAnti x y hxy)
    (div_pos two_pos sqrt_pi_pos)

lemma erfc_zero : erfc 0 = 1 := by
  unfold erfc
  rw [integral_exp_sq_Ioi_zero]
  field_simp

lemma erfc_pos (x : ℝ) : 0 < erfc x :=
  mul_pos (div_pos two_pos sqrt_pi_pos) (integral_exp_sq_Ioi_pos x)

lemma erfc_le_one (x : ℝ) (hx : 0 ≤ x) : erfc x ≤ 1 := by
  rcases eq_or_lt_of_le hx with h | h
  · rw [← h, erfc_zero]
  · exact (erfc_strictAnti h).le.trans erfc_zero.le

lemma ber_model_zero : ber_model 0 = 0.5 := by
  unfold ber_model
  rw [Real.sqrt_zero, erfc_zero, mul_one]

lemma ber_model_pos (x : ℝ) : 0 < ber_model x :=
  mul_pos (by norm_num) (erfc_pos _)

lemma ber_model_le_half (x : ℝ) (_hx : 0 ≤ x) : ber_model x ≤ 0.5 := by
  unfold ber_model
  have h := erfc_le_one (Real.sqrt x) (Real.sqrt_nonneg x)
  nlinarith

lemma ber_model_lt_half (x : ℝ) (hx : 0 < x) : ber_model x < 0.5 := by
  unfold ber_model
  have hs : 0 < Real.sqrt x := Real.sqrt_pos.mpr hx
  have h : erfc (Real.sqrt x) < erfc 0 := erfc_strictAnti hs
  rw [erfc_zero] at h
  nlinarith

lemma ber_model_strictAntiOn : StrictAntiOn ber_model (Ici 0) := by
  intro a ha b hb hab
  unfold ber_model
  have hs : Real.sqrt a < Real.sqrt b := Real.sqrt_lt_sqrt (mem_Ici.mp ha) hab
  exact mul_lt_mul_of_pos_left (erfc_strictAnti hs) (by norm_num)

lemma ber_le_ber_iff {a b : ℝ} (ha : 0 ≤ a) (hb : 0 ≤ b) :
    ber_model a ≤ ber_model b ↔ b ≤ a :=
  ber_model_strictAntiOn.le_iff_le (mem_Ici.mpr ha) (mem_Ici.mpr hb)

lemma ber_lt_ber_iff {a b : ℝ} (ha : 0 ≤ a) (hb : 0 ≤ b) :
    ber_model a < ber_model b ↔ b < a :=
  ber_model_strictAntiOn.lt_iff_lt (mem_Ici.mpr ha) (mem_Ici.mpr hb)

lemma ber_checked_of_nonneg (x : ℝ) (hx : 0 ≤ x) :
    ber_qpsk_uncoded_awgn_from_ebn0_lin x = .ok (ber_model x) := by
  unfold ber_qpsk_uncoded_awgn_from_ebn0_lin
  rw [if_neg (not_lt.mpr hx)]

/-! ## BER model range and monotonicity: claims C2, C3 -/

/-- C2: `berFromEbN0Linear` is monotonically non-increasing: whenever
`0 ≤ x ≤ y` both evaluations succeed and the value at `y` is at most the
value at `x`. -/
theorem ber_monotone_nonincreasing (x y : ℝ) (hx : 0 ≤ x) (hxy : x ≤ y) :
    ∃ a b, ber_qpsk_uncoded_awgn_from_ebn0_lin x = .ok a ∧
      ber_qpsk_uncoded_awgn_from_ebn0_lin y = .ok b ∧ b ≤ a := by
  have hy : 0 ≤ y := hx.trans hxy
  exact ⟨_, _, ber_checked_of_nonneg x hx, ber_checked_of_nonneg y hy,
    (ber_le_ber_iff hy hx).mpr hxy⟩

/-- Witness for C2 at `x = 0`, `y = 1`. -/
theorem ber_monotone_nonincreasing_witness :
    ∃ a b, ber_qpsk_uncoded_awgn_from_ebn0_lin 0 = .ok a ∧
      ber_qpsk_uncoded_awgn_from_ebn0_lin 1 = .ok b ∧ b ≤ a :=
  ber_monotone_nonincreasing 0 1 le_rfl zero_le_one

/-- C3: for every `ebn0Lin ≥ 0` the BER value lies in `(0, 0.5]`, and at
`ebn0Lin = 0` it equals `0.5` exactly. -/
theorem ber_range :
    (∀ x : ℝ, 0 ≤ x → ∃ b, ber_qpsk_uncoded_awgn_from_ebn0_lin x = .ok b ∧
      0 < b ∧ b ≤ 0.5) ∧
    ber_qpsk_uncoded_awgn_from_ebn0_lin 0 = .ok 0.5 := by
  constructor
  · intro x hx
    exact ⟨_, ber_checked_of_nonneg x hx, ber_model_pos x, ber_model_le_half x hx⟩
  · rw [ber_checked_of_nonneg 0 le_rfl, ber_model_zero]

/-- Witness for C3 at `x = 1`. -/
theorem ber_range_witness :
    ∃ b, ber_qpsk_uncoded_awgn_from_ebn0_lin 1 = .ok b ∧ 0 < b ∧ b ≤ 0.5 :=
  ber_range.1 1 zero_le_one

/-! ## The Eb/N0 solver: loop lemmas -/

lemma bind_ok {α β : Type} (a : α) (f : α → Except Err β) :
    (Except.ok a : Except Err α).bind f = f a := rfl

lemma bind_err {α β : Type} (e : Err) (f : α → Except Err β) :
    (Except.error e : Except Err α).bind f = .error e := rfl

lemma pure_ok {α : Type} (a : α) : (pure a : Except Err α) = .ok a := rfl

lemma bindM_ok {α β : Type} (a : α) (f : α → Except Err β) :
    (Except.ok a : Except Err α) >>= f = f a := rfl

lemma bindM_err {α β : Type} (e : Err) (f : α → Except Err β) :
    (Except.error e : Except Err α) >>= f = .error e := rfl

lemma bracket_succ (t : ℝ) (n : ℕ) (hi : ℝ) :
    bracket t (n + 1) hi =
      (ber_qpsk_uncoded_awgn_from_ebn0_lin hi).bind fun b =>
        if t < b then
          if 1e12 < 2 * hi then .error .convergenceFailure
          else bracket t n (2 * hi)
        else .ok hi := rfl

lemma bisect_succ (t tol : ℝ) (n : ℕ) (lo hi : ℝ) :
    bisect t tol (n + 1) lo hi =
      (ber_qpsk_uncoded_awgn_from_ebn0_lin (0.5 * (lo + hi))).bind fun b =>
        if t < b then
          if (hi - 0.5 * (lo + hi)) / max 1 hi < tol then .ok (0.5 * (lo + hi), hi)
          else bisect t tol n (0.5 * (lo + hi)) hi
        else
          if (0.5 * (lo + hi) - lo) / max 1 (0.5 * (lo + hi)) < tol then
            .ok (lo, 0.5 * (lo + hi))
          else bisect t tol n lo (0.5 * (lo + hi)) := rfl

/-- If the target is below the BER reachable at the bracket ceiling, the
doubling loop raises `ConvergenceFailure`: starting from `hi = 2^k` it keeps
doubling and trips the `hi > 1e12` check at `2^40`. -/
lemma bracket_fails : ∀ (n k : ℕ) (t : ℝ), k ≤ 39 → 40 ≤ n + k →
    t < ber_model ((2 : ℝ) ^ 39) →
    bracket t n ((2 : ℝ) ^ k) = .error .convergenceFailure := by
  intro n
  induction n with
  | zero => intro k t hk hnk ht; omega
  | succ n ih =>
    intro k t hk hnk ht
    rw [bracket_succ, ber_checked_of_nonneg _ (by positivity), bind_ok]
    have hble : ber_model ((2 : ℝ) ^ 39) ≤ ber_model ((2 : ℝ) ^ k) :=
      (ber_le_ber_iff (by positivity) (by positivity)).mpr
        (pow_le_pow_right₀ one_le_two hk)
    rw [if_pos (ht.trans_le hble)]
    rcases eq_or_lt_of_le hk with rfl | hk'
    · rw [if_pos (by norm_num : (1e12 : ℝ) < 2 * 2 ^ 39)]
    · have h2 : (2 : ℝ) * 2 ^ k = 2 ^ (k + 1) := by rw [pow_succ]; ring
      have h3 : ¬ (1e12 : ℝ) < 2 * 2 ^ k := by
        rw [h2]
        have : (2 : ℝ) ^ (k + 1) ≤ 2 ^ 39 :=
          pow_le_pow_right₀ one_le_two (by omega)
        have h39 : (2 : ℝ) ^ 39 ≤ 1e12 := by norm_num
        linarith
      rw [if_neg h3, h2]
      exact ih (k + 1) t (by omega) (by omega) ht

/-- If the target is reachable at the bracket ceiling, the doubling loop
succeeds and returns the first power of two whose BER is at or below the
target. -/
lemma bracket_succeeds : ∀ (n k : ℕ) (t : ℝ), k ≤ 39 → 40 ≤ n + k →
    ber_model ((2 : ℝ) ^ 39) ≤ t →
    ∃ j : ℕ, k ≤ j ∧ j ≤ 39 ∧ bracket t n ((2 : ℝ) ^ k) = .ok ((2 : ℝ) ^ j) ∧
      ber_model ((2 : ℝ) ^ j) ≤ t := by
  intro n
  induction n with
  | zero => intro k t hk hnk ht; omega
  | succ n ih =>
    intro k t hk hnk ht
    rw [bracket_succ, ber_checked_of_nonneg _ (by positivity), bind_ok]
    by_cases hbk : t < ber_model ((2 : ℝ) ^ k)
    · rw [if_pos hbk]
      have hk' : k < 39 := by
        rcases eq_or_lt_of_le hk with rfl | h
        · exact absurd ht (not_le.mpr hbk)
        · exact h
      have h2 : (2 : ℝ) * 2 ^ k = 2 ^ (k + 1) := by rw [pow_succ]; ring
      have h3 : ¬ (1e12 : ℝ) < 2 * 2 ^ k := by
        rw [h2]
        have : (2 : ℝ) ^ (k + 1) ≤ 2 ^ 39 :=
          pow_le_pow_right₀ one_le_two (by omega)
        have h39 : (2 : ℝ) ^ 39 ≤ 1e12 := by norm_num
        linarith
      rw [if_neg h3, h2]
      obtain ⟨j, hj1, hj2, hj3, hj4⟩ := ih (k + 1) t (by omega) (by omega) ht
      exact ⟨j, by omega, hj2, hj3, hj4⟩
    · rw [if_neg hbk]
      exact ⟨k, le_rfl, hk, rfl, not_lt.mp hbk⟩

/-- Invariants of the bisection loop: starting from a bracket
`ber lo > t ≥ ber hi` with `0 ≤ lo ≤ hi`, it returns (never raises) a
bracket with the same properties whose upper end only shrinks, and on
return either the relative-width early exit fired or the loop ran `n`
halvings. -/
lemma bisect_spec (t tol : ℝ) : ∀ (n : ℕ) (lo hi : ℝ),
    0 ≤ lo → lo ≤ hi → t < ber_model lo → ber_model hi ≤ t →
    ∃ lo2 hi2, bisect t tol n lo hi = .ok (lo2, hi2) ∧
      0 ≤ lo2 ∧ lo2 ≤ hi2 ∧ t < ber_model lo2 ∧ ber_model hi2 ≤ t ∧
      hi2 ≤ hi ∧
      ((hi2 - lo2) / max 1 hi2 < tol ∨ hi2 - lo2 ≤ (hi - lo) / 2 ^ n) := by
  intro n
  induction n with
  | zero =>
    intro lo hi h0 hlh hblo hbhi
    exact ⟨lo, hi, rfl, h0, hlh, hblo, hbhi, le_rfl, Or.inr (by norm_num)⟩
  | succ n ih =>
    intro lo hi h0 hlh hblo hbhi
    have hmid0 : 0 ≤ 0.5 * (lo + hi) := by linarith
    have hmidlo : lo ≤ 0.5 * (lo + hi) := by linarith
    have hmidhi : 0.5 * (lo + hi) ≤ hi := by linarith
    rw [bisect_succ, ber_checked_of_nonneg _ hmid0, bind_ok]
    by_cases hb : t < ber_model (0.5 * (lo + hi))
    · rw [if_pos hb]
      by_cases hbrk : (hi - 0.5 * (lo + hi)) / max 1 hi < tol
      · rw [if_pos hbrk]
        exact ⟨_, hi, rfl, hmid0, hmidhi, hb, hbhi, le_rfl, Or.inl hbrk⟩
      · rw [if_neg hbrk]
        obtain ⟨lo2, hi2, heq, p0, p1, p2, p3, p4, p5⟩ :=
          ih (0.5 * (lo + hi)) hi hmid0 hmidhi hb hbhi
        refine ⟨lo2, hi2, heq, p0, p1, p2, p3, p4, ?_⟩
        rcases p5 with h | h
        · exact Or.inl h
        · right
          calc hi2 - lo2 ≤ (hi - 0.5 * (lo + hi)) / 2 ^ n := h
            _ = (hi - lo) / 2 ^ (n + 1) := by rw [pow_succ]; ring
    · rw [if_neg hb]
      have hbmid : ber_model (0.5 * (lo + hi)) ≤ t := not_lt.mp hb
      by_cases hbrk : (0.5 * (lo + hi) - lo) / max 1 (0.5 * (lo + hi)) < tol
      · rw [if_pos hbrk]
        exact ⟨lo, _, rfl, h0, hmidlo, hblo, hbmid, hmidhi, Or.inl hbrk⟩
      · rw [if_neg hbrk]
        obtain ⟨lo2, hi2, heq, p0, p1, p2, p3, p4, p5⟩ :=
          ih lo (0.5 * (lo + hi)) h0 hmidlo hblo hbmid
        refine ⟨lo2, hi2, heq, p0, p1, p2, p3, p4.trans hmidhi, ?_⟩
        rcases p5 with h | h
        · exact Or.inl h
        · right
          calc hi2 - lo2 ≤ (0.5 * (lo + hi) - lo) / 2 ^ n := h
            _ = (hi - lo) / 2 ^ (n + 1) := by rw [pow_succ]; ring

/-- Structure of a successful solver run: when the target passes validation
and is reachable at the bracket ceiling, the solver returns the final upper
bisection bracket `hi2` together with its dB form, and the final bracket
`[lo2, hi2]` still satisfies `ber lo2 > t ≥ ber hi2` with relative width
below the tolerance. -/
lemma solver_ok_struct (t : ℝ) (h0 : 0 < t) (h5 : t < 0.5)
    (hb : ber_model ((2 : ℝ) ^ 39) ≤ t) :
    ∃ lo2 hi2,
      required_ebn0_for_target_ber t = .ok (hi2, 10 * Real.logb 10 hi2) ∧
      0 ≤ lo2 ∧ lo2 ≤ hi2 ∧ 0 < hi2 ∧ t < ber_model lo2 ∧ ber_model hi2 ≤ t ∧
      hi2 - lo2 < 1e-12 * max 1 hi2 := by
  obtain ⟨j, hj0, hj39, hbr, hbj⟩ := bracket_succeeds 50 0 t (by omega) (by omega) hb
  rw [pow_zero] at hbr
  have hblo0 : t < ber_model 0 := by rw [ber_model_zero]; exact h5
  obtain ⟨lo2, hi2, hbis, p0, p1, p2, p3, p4, p5⟩ :=
    bisect_spec t 1e-12 200 0 ((2 : ℝ) ^ j) le_rfl (by positivity) hblo0 hbj
  have hhi2 : 0 < hi2 := by
    rcases eq_or_lt_of_le (p0.trans p1) with h | h
    · exfalso
      rw [← h, ber_model_zero] at p3
      linarith
    · exact h
  have hmax : (0 : ℝ) < max 1 hi2 := lt_of_lt_of_le one_pos (le_max_left 1 hi2)
  have hwidth : hi2 - lo2 < 1e-12 * max 1 hi2 := by
    rcases p5 with h | h
    · calc hi2 - lo2 = (hi2 - lo2) / max 1 hi2 * max 1 hi2 := by
            field_simp
        _ < 1e-12 * max 1 hi2 := by
            exact mul_lt_mul_of_pos_right h hmax
    · have hjle : (2 : ℝ) ^ j ≤ 2 ^ 39 := pow_le_pow_right₀ one_le_two hj39
      have h200 : ((2 : ℝ) ^ j - 0) / 2 ^ 200 ≤ (2 : ℝ) ^ 39 / 2 ^ 200 := by
        apply div_le_div_of_nonneg_right _ (by positivity)
        linarith
      have hsmall : (2 : ℝ) ^ 39 / 2 ^ 200 < 1e-12 := by norm_num
      have h1e : (1e-12 : ℝ) ≤ 1e-12 * max 1 hi2 := by
        nlinarith [le_max_left (1 : ℝ) hi2]
      linarith
  refine ⟨lo2, hi2, ?_, p0, p1, hhi2, p2, p3, hwidth⟩
  unfold required_ebn0_for_target_ber required_ebn0_core
  rw [if_pos ⟨h0, h5⟩, hbr]
  simp only [bindM_ok]
  rw [hbis]
  simp only [bindM_ok]
  show (lin_to_db hi2) >>= _ = _
  rw [(lin_to_db_domain hi2).1 hhi2]
  simp only [bindM_ok]
  rfl

/-- When the target BER is strictly below what is reachable at the bracket
ceiling, the solver propagates the `ConvergenceFailure` of the doubling
loop. -/
lemma solver_cf (t : ℝ) (h0 : 0 < t) (h5 : t < 0.5)
    (hb : t < ber_model ((2 : ℝ) ^ 39)) :
    required_ebn0_for_target_ber t = .error .convergenceFailure := by
  have hbr := bracket_fails 50 0 t (by omega) (by omega) hb
  rw [pow_zero] at hbr
  unfold required_ebn0_for_target_ber required_ebn0_core
  rw [if_pos ⟨h0, h5⟩, hbr]
  simp only [bindM_err]

/-- When validation fails, the solver raises `InvalidInput` immediately. -/
lemma solver_invalid (t : ℝ) (hv : ¬(0 < t ∧ t < 0.5)) :
    required_ebn0_for_target_ber t = .error .invalidInput := by
  unfold required_ebn0_for_target_ber required_ebn0_core
  rw [if_neg hv]

/-! ## Solver error behaviour: claims C4, C5 -/

/-- C4: `requiredEbN0ForTargetBer` raises `InvalidInput` exactly when the
target BER lies outside the open interval `(0, 0.5)`; in particular it
fails for `0`, `0.5` and `0.7`, and never fails validation inside the
interval. -/
theorem required_ebn0_invalid_input_iff :
    (∀ t : ℝ, required_ebn0_for_target_ber t = .error .invalidInput ↔
      ¬(0 < t ∧ t < 0.5)) ∧
    required_ebn0_for_target_ber 0 = .error .invalidInput ∧
    required_ebn0_for_target_ber 0.5 = .error .invalidInput ∧
    required_ebn0_for_target_ber 0.7 = .error .invalidInput := by
  have hmain : ∀ t : ℝ, required_ebn0_for_target_ber t = .error .invalidInput ↔
      ¬(0 < t ∧ t < 0.5) := by
    intro t
    constructor
    · intro h
      intro hv
      rcases lt_or_le t (ber_model ((2 : ℝ) ^ 39)) with hbr | hbr
      · rw [solver_cf t hv.1 hv.2 hbr] at h
        simp at h
      · obtain ⟨lo2, hi2, heq, -⟩ := solver_ok_struct t hv.1 hv.2 hbr
        rw [heq] at h
        simp at h
    · exact solver_invalid t
  exact ⟨hmain, (hmain 0).mpr (by norm_num), (hmain 0.5).mpr (by norm_num),
    (hmain 0.7).mpr (by norm_num)⟩

/-- Witness for C4 at the out-of-range target `0.7`. -/
theorem required_ebn0_invalid_input_witness :
    required_ebn0_for_target_ber 0.7 = .error .invalidInput :=
  required_ebn0_invalid_input_iff.2.2.2

/-- C5: the solver fails with `ConvergenceFailure` exactly when the target
passes validation but the doubling loop `hi = 1, 2, 4, ...` never reaches
`ber(hi) ≤ targetBer` before the `1e12` ceiling (the loop raises at
`hi = 2^40 > 1e12`, so the doubled values tested are `2^0 .. 2^39`); no
other step of the solver raises `ConvergenceFailure`. -/
theorem required_ebn0_convergence_failure_iff (t : ℝ) :
    required_ebn0_for_target_ber t = .error .convergenceFailure ↔
      ((0 < t ∧ t < 0.5) ∧ ∀ k : ℕ, k ≤ 39 → t < ber_model ((2 : ℝ) ^ k)) := by
  constructor
  · intro h
    by_cases hv : 0 < t ∧ t < 0.5
    · rcases lt_or_le t (ber_model ((2 : ℝ) ^ 39)) with hbr | hbr
      · refine ⟨hv, fun k hk => hbr.trans_le ?_⟩
        exact (ber_le_ber_iff (by positivity) (by positivity)).mpr
          (pow_le_pow_right₀ one_le_two hk)
      · obtain ⟨lo2, hi2, heq, -⟩ := solver_ok_struct t hv.1 hv.2 hbr
        rw [heq] at h
        simp at h
    · rw [solver_invalid t hv] at h
      simp at h
  · rintro ⟨hv, hall⟩
    exact solver_cf t hv.1 hv.2 (hall 39 le_rfl)

/-- Witness for C5: a positive target below the ceiling BER, namely
`ber(2^40)`, makes the solver fail with `ConvergenceFailure`. -/
theorem required_ebn0_convergence_failure_witness :
    required_ebn0_for_target_ber (ber_model ((2 : ℝ) ^ 40)) =
      .error .convergenceFailure := by
  rw [required_ebn0_convergence_failure_iff]
  refine ⟨⟨ber_model_pos _, ber_model_lt_half _ (by positivity)⟩, fun k hk => ?_⟩
  exact (ber_lt_ber_iff (by positivity) (by positivity)).mpr
    (pow_lt_pow_right₀ one_lt_two (by omega))

/-! ## Tightness of the returned bracket: claim C1 -/

/-- C1 (amended): for every target BER at or above `ber(2^39)` — exactly the
targets in `(0, 0.5)` on which the solver returns rather than failing to
bracket — and at or below `ber(1e-6)`, the solver returns the final upper
bracket `hi` (linear, with its dB form), and this value `v` satisfies
`ber(v) ≤ targetBer` and `ber(v*(1-1e-6)) > targetBer`.  The amendment
restricts the tightness guarantee to targets `≤ ber(1e-6) ≈ 0.4994`
(a range containing the headline `targetBer = 1e-6`); for targets closer
to `0.5` tightness can fail, see `required_ebn0_tight_counterexample`. -/
theorem required_ebn0_tight (t : ℝ)
    (hlow : ber_model ((2 : ℝ) ^ 39) ≤ t) (hhigh : t ≤ ber_model 1e-6) :
    ∃ v d, required_ebn0_for_target_ber t = .ok (v, d) ∧
      lin_to_db v = .ok d ∧ ber_model v ≤ t ∧
      t < ber_model (v * (1 - 1e-6)) := by
  have h0 : 0 < t := (ber_model_pos _).trans_le hlow
  have h5 : t < 0.5 := lt_of_le_of_lt hhigh (ber_model_lt_half _ (by norm_num))
  obtain ⟨lo2, hi2, heq, hl0, hllh, hhi2, hblo, hbhi, hw⟩ :=
    solver_ok_struct t h0 h5 hlow
  refine ⟨hi2, _, heq, (lin_to_db_domain hi2).1 hhi2, hbhi, ?_⟩
  have hv6 : (1e-6 : ℝ) ≤ hi2 :=
    (ber_le_ber_iff hhi2.le (by norm_num)).mp (hbhi.trans hhigh)
  have hkey : hi2 - lo2 < 1e-6 * hi2 := by
    rcases le_or_lt 1 hi2 with h1 | h1
    · rw [max_eq_right h1] at hw
      nlinarith
    · rw [max_eq_left h1.le] at hw
      nlinarith
  have harg : hi2 * (1 - 1e-6) ≤ lo2 := by nlinarith
  have hargnn : 0 ≤ hi2 * (1 - 1e-6) := by nlinarith
  exact hblo.trans_le ((ber_le_ber_iff hl0 hargnn).mpr harg)

/-- Collapsing the initial halving phase of the bisection: while the target
lies at or below the BER of the next midpoint `1/2^(m+i+1)` and the width
has not dropped below the tolerance, every step replaces `hi = 1/2^m` by
`hi = 1/2^(m+1)` with `lo` stuck at `0`. -/
lemma bisect_halving (t : ℝ) : ∀ (k m n : ℕ),
    ber_model (1 / 2 ^ (m + k)) ≤ t →
    (1e-12 : ℝ) ≤ 1 / 2 ^ (m + k) →
    bisect t 1e-12 (n + k) 0 (1 / 2 ^ m) =
      bisect t 1e-12 n 0 (1 / 2 ^ (m + k)) := by
  intro k
  induction k with
  | zero => intro m n h1 h2; rfl
  | succ k ih =>
    intro m n h1 h2
    rw [show n + (k + 1) = n + k + 1 from rfl, bisect_succ]
    have hm : (0.5 : ℝ) * (0 + 1 / 2 ^ m) = 1 / 2 ^ (m + 1) := by
      rw [pow_succ]; ring
    rw [hm, ber_checked_of_nonneg _ (by positivity), bind_ok]
    have hexp : m + (k + 1) = m + 1 + k := by omega
    rw [hexp] at h1 h2
    have hmono : (1 : ℝ) / 2 ^ (m + 1 + k) ≤ 1 / 2 ^ (m + 1) :=
      one_div_le_one_div_of_le (by positivity)
        (pow_le_pow_right₀ one_le_two (by omega))
    have hble : ber_model (1 / 2 ^ (m + 1)) ≤ t :=
      ((ber_le_ber_iff (by positivity) (by positivity)).mpr hmono).trans h1
    rw [if_neg (not_lt.mpr hble)]
    have hx1 : (1 : ℝ) / 2 ^ (m + 1) ≤ 1 := by
      rw [div_le_one (by positivity)]
      calc (1 : ℝ) = 2 ^ 0 := by norm_num
        _ ≤ 2 ^ (m + 1) := pow_le_pow_right₀ one_le_two (by omega)
    have hmaxeq : max 1 ((1 : ℝ) / 2 ^ (m + 1)) = 1 := max_eq_left hx1
    have hnb : ¬ ((1 : ℝ) / 2 ^ (m + 1) - 0) / max 1 ((1 : ℝ) / 2 ^ (m + 1))
        < 1e-12 := by
      rw [sub_zero, hmaxeq, div_one, not_lt]
      exact h2.trans hmono
    rw [if_neg hnb, hexp]
    exact ih (m + 1) n h1 h2

/-- Concrete solver run at the adversarial target
`t = ber(399/(100*2^40))`: the bracket loop exits immediately with `hi = 1`,
the bisection performs 38 halvings of `hi` followed by two raises of `lo`,
and the early exit fires at width `2^-40`, returning `hi = 1/2^38`. -/
lemma required_ebn0_trace :
    required_ebn0_for_target_ber (ber_model (399 / 109951162777600)) =
      .ok (1 / 2 ^ 38, 10 * Real.logb 10 (1 / 2 ^ 38)) := by
  have hx0 : (0 : ℝ) < 399 / 109951162777600 := by norm_num
  have h0 : 0 < ber_model (399 / 109951162777600) := ber_model_pos _
  have h5 : ber_model (399 / 109951162777600) < 0.5 := ber_model_lt_half _ hx0
  have hbr : bracket (ber_model (399 / 109951162777600)) 50 1 = .ok 1 := by
    rw [show (50 : ℕ) = 49 + 1 from rfl, bracket_succ,
      ber_checked_of_nonneg _ zero_le_one, bind_ok]
    rw [if_neg (not_lt.mpr
      ((ber_le_ber_iff zero_le_one hx0.le).mpr (by norm_num)))]
  have hhalf := bisect_halving (ber_model (399 / 109951162777600)) 38 0 162
    ((ber_le_ber_iff (by positivity) hx0.le).mpr (by norm_num))
    (by norm_num)
  rw [show (162 + 38 : ℕ) = 200 from rfl, show (0 + 38 : ℕ) = 38 from rfl,
    show (1 : ℝ) / 2 ^ 0 = 1 by norm_num] at hhalf
  have hs1 : bisect (ber_model (399 / 109951162777600)) 1e-12 162 0
        (1 / 2 ^ 38) =
      bisect (ber_model (399 / 109951162777600)) 1e-12 161 (1 / 2 ^ 39)
        (1 / 2 ^ 38) := by
    rw [show (162 : ℕ) = 161 + 1 from rfl, bisect_succ]
    have hm : (0.5 : ℝ) * (0 + 1 / 2 ^ 38) = 1 / 2 ^ 39 := by norm_num
    rw [hm, ber_checked_of_nonneg _ (by positivity), bind_ok]
    rw [if_pos ((ber_lt_ber_iff hx0.le (by positivity)).mpr (by norm_num))]
    have hmaxeq : max 1 ((1 : ℝ) / 2 ^ 38) = 1 := max_eq_left (by norm_num)
    rw [if_neg (by rw [hmaxeq]; norm_num)]
  have hs2 : bisect (ber_model (399 / 109951162777600)) 1e-12 161 (1 / 2 ^ 39)
        (1 / 2 ^ 38) =
      .ok (3 / 2 ^ 40, 1 / 2 ^ 38) := by
    rw [show (161 : ℕ) = 160 + 1 from rfl, bisect_succ]
    have hm : (0.5 : ℝ) * (1 / 2 ^ 39 + 1 / 2 ^ 38) = 3 / 2 ^ 40 := by norm_num
    rw [hm, ber_checked_of_nonneg _ (by positivity), bind_ok]
    rw [if_pos ((ber_lt_ber_iff hx0.le (by positivity)).mpr (by norm_num))]
    have hmaxeq : max 1 ((1 : ℝ) / 2 ^ 38) = 1 := max_eq_left (by norm_num)
    rw [if_pos (by rw [hmaxeq]; norm_num)]
  unfold required_ebn0_for_target_ber required_ebn0_core
  rw [if_pos ⟨h0, h5⟩, hbr]
  simp only [bindM_ok]
  rw [hhalf, hs1, hs2]
  simp only [bindM_ok]
  show (lin_to_db (1 / 2 ^ 38)) >>= _ = _
  rw [(lin_to_db_domain ((1 : ℝ) / 2 ^ 38)).1 (by positivity)]
  simp only [bindM_ok]
  rfl

/-- Counterexample to C1 as stated: at the admissible target
`t = ber(399/(100*2^40))` (which lies strictly between `0` and `0.5`) the
solver returns `v = 1/2^38`, but `ber(v*(1-1e-6)) > t` fails, because
`v*(1-1e-6)` still exceeds the exact root `399/(100*2^40)`. -/
theorem required_ebn0_tight_counterexample :
    (0 < ber_model (399 / 109951162777600) ∧
      ber_model (399 / 109951162777600) < 0.5) ∧
    required_ebn0_for_target_ber (ber_model (399 / 109951162777600)) =
      .ok (1 / 2 ^ 38, 10 * Real.logb 10 (1 / 2 ^ 38)) ∧
    ¬ (ber_model (399 / 109951162777600) <
        ber_model (1 / 2 ^ 38 * (1 - 1e-6))) := by
  refine ⟨⟨ber_model_pos _, ber_model_lt_half _ (by norm_num)⟩,
    required_ebn0_trace, ?_⟩
  rw [not_lt]
  exact (ber_le_ber_iff (by positivity) (by norm_num)).mpr (by norm_num)

/-- Witness for C1's amended theorem at the in-range target `ber(1)`. -/
theorem required_ebn0_tight_witness :
    ∃ v d, required_ebn0_for_target_ber (ber_model 1) = .ok (v, d) ∧
      lin_to_db v = .ok d ∧ ber_model v ≤ ber_model 1 ∧
      ber_model 1 < ber_model (v * (1 - 1e-6)) :=
  required_ebn0_tight (ber_model 1)
    ((ber_le_ber_iff (by positivity) zero_le_one).mpr (by norm_num))
    ((ber_le_ber_iff zero_le_one (by norm_num)).mpr (by norm_num))

end LinkBudget
